import Mathlib

/-!
Verification of the Kalman statistical-arbitrage engine.

The development shallowly embeds the three core components of the
repository over exact rationals:

* `kalmanStep` / `processData` — the recursive regression filter of
  `src/kalman.py` (`KalmanFilterReg.process_data`), with the mutable
  instance state (`state_mean`, `state_cov`) threaded explicitly.
* `posStep` / `positionsAux` / `generateSignals` — the z-score and
  position state machine of `src/strategy.py`
  (`StrategyAnalyzer.generate_signals`).  Because the z-score divides by
  a square root that can be zero or undefined, its values live in `ExtQ`,
  rationals extended with `nan` and signed infinities, mirroring how
  numpy floats behave at those points (numpy raises no exception there).
* `strategyPnl` / `netPnl` / `equityCurve` / `calculateSharpe` — the
  vectorized performance engine of `src/backtester.py`
  (`VectorizedBacktester.run`, `_calculate_sharpe`).  Missing values
  produced by `diff()` / `shift(1)` are modelled as `none`, matching
  pandas NaN propagation; `fillna0` and `cumsumAux` model `fillna(0)`
  and NaN-skipping `cumsum`.

Square roots are modelled by `Rat.sqrt`, which agrees with the float
square root on perfect squares and at `0`; no theorem below depends on
its value at any other point.
-/

/-! ### Adaptive regression filter (src/kalman.py) -/

/-- The mutable estimator state of `KalmanFilterReg`: `state_mean`
(current hedge-ratio estimate) and `state_cov` (its scalar
uncertainty).  `__init__` sets them to `0` and `1`. -/
structure KState where
  mean : ℚ
  cov : ℚ
deriving DecidableEq

/-- One row of the DataFrame returned by `process_data`: the columns
`beta`, `spread` and `spread_var`. -/
structure KOut where
  beta : ℚ
  spread : ℚ
  spreadVar : ℚ
deriving DecidableEq

/-- The body of the `for t in range(n)` loop of
`KalmanFilterReg.process_data`, line for line: predict, observe,
innovate, gain, posterior update; it returns the updated state together
with the row stored for this step. -/
def kalmanStep (delta R : ℚ) (s : KState) (x y : ℚ) : KState × KOut :=
  let predState := s.mean
  let predCov := s.cov + delta
  let H := x
  let yPred := H * predState
  let error := y - yPred
  let S := H * predCov * H + R
  let K := predCov * H / S
  let newMean := predState + K * error
  let newCov := predCov * (1 - K * H)
  (⟨newMean, newCov⟩, ⟨newMean, error, S⟩)

/-- The Kalman gain `K = (pred_cov * H) / S` computed inside the loop of
`process_data` at a step with design value `x`, as a function of the
incoming state. -/
def kalmanGain (delta R : ℚ) (s : KState) (x : ℚ) : ℚ :=
  (s.cov + delta) * x / (x * (s.cov + delta) * x + R)

/-- `KalmanFilterReg.process_data`: runs the recursive loop over the two
price series, threading the instance state, and returns the final state
together with the list of emitted rows.  The loop consumes one element
of each series per step. -/
def processData (delta R : ℚ) (s : KState) : List ℚ → List ℚ → KState × List KOut
  | x :: xs, y :: ys =>
    let so := kalmanStep delta R s x y
    let rest := processData delta R so.1 xs ys
    (rest.1, so.2 :: rest.2)
  | _, _ => (s, [])

/-- The state a freshly constructed `KalmanFilterReg` starts from:
`state_mean = 0`, `state_cov = 1`. -/
def kalmanFreshState : KState := ⟨0, 1⟩

/-- One step of the per-step recursion exactly as the specification
words it: `predicted_cov = cov + delta`; `error = Y[t] - X[t]*mean`;
`S = X[t]*predicted_cov*X[t] + R`; `K = predicted_cov*X[t]/S`;
`new mean = mean + K*error`; `new cov = predicted_cov*(1 - K*X[t])`;
emitting `(new mean, error, S)`.  Spec-side definition used to state the
refinement claim about `process_data`. -/
def specKalmanStep (delta R : ℚ) (acc : (ℚ × ℚ) × List KOut) (xy : ℚ × ℚ) :
    (ℚ × ℚ) × List KOut :=
  let mean := acc.1.1
  let cov := acc.1.2
  let predictedCov := cov + delta
  let error := xy.2 - xy.1 * mean
  let S := xy.1 * predictedCov * xy.1 + R
  let K := predictedCov * xy.1 / S
  let newMean := mean + K * error
  let newCov := predictedCov * (1 - K * xy.1)
  ((newMean, newCov), acc.2 ++ [⟨newMean, error, S⟩])

/-- The left fold of the spec's per-step recursion over the paired
inputs, starting from `mean = 0`, `covariance = 1`.  Spec-side
definition for the refinement claim. -/
def specKalman (delta R : ℚ) (xs ys : List ℚ) : List KOut :=
  (List.foldl (specKalmanStep delta R) ((0, 1), []) (xs.zip ys)).2

/-! ### Signal generator (src/strategy.py) -/

/-- Value domain of the z-score column: a rational, or one of the three
special float values numpy produces when dividing by a zero or undefined
standard deviation. -/
inductive ExtQ where
  | nan : ExtQ
  | pinf : ExtQ
  | ninf : ExtQ
  | fin (q : ℚ) : ExtQ
deriving DecidableEq

/-- `np.sqrt` on the extended domain: `nan` on negative arguments (numpy
returns NaN there), exact on `0` and on perfect squares via
`Rat.sqrt`. -/
def extSqrt : ExtQ → ExtQ
  | .nan => .nan
  | .pinf => .pinf
  | .ninf => .nan
  | .fin q => if q < 0 then .nan else .fin (Rat.sqrt q)

/-- Float division on the extended domain: NaN-propagating, with
division of a nonzero finite value by zero giving a signed infinity and
`0/0` giving NaN, as numpy does. -/
def extDiv : ExtQ → ExtQ → ExtQ
  | .nan, _ => .nan
  | _, .nan => .nan
  | .pinf, .pinf => .nan
  | .pinf, .ninf => .nan
  | .pinf, .fin b => if b < 0 then .ninf else .pinf
  | .ninf, .pinf => .nan
  | .ninf, .ninf => .nan
  | .ninf, .fin b => if b < 0 then .pinf else .ninf
  | .fin _, .pinf => .fin 0
  | .fin _, .ninf => .fin 0
  | .fin a, .fin b =>
    if b = 0 then (if a = 0 then .nan else if 0 < a then .pinf else .ninf)
    else .fin (a / b)

/-- Float comparison `z < c` against a finite threshold: false on NaN. -/
def extLt (a : ExtQ) (c : ℚ) : Bool :=
  match a with
  | .nan => false
  | .pinf => false
  | .ninf => true
  | .fin q => decide (q < c)

/-- Float comparison `z > c` against a finite threshold: false on NaN. -/
def extGt (a : ExtQ) (c : ℚ) : Bool :=
  match a with
  | .nan => false
  | .pinf => true
  | .ninf => false
  | .fin q => decide (c < q)

/-- Float comparison `z >= c` against a finite threshold: false on NaN. -/
def extGe (a : ExtQ) (c : ℚ) : Bool :=
  match a with
  | .nan => false
  | .pinf => true
  | .ninf => false
  | .fin q => decide (c ≤ q)

/-- Float comparison `z <= c` against a finite threshold: false on NaN. -/
def extLe (a : ExtQ) (c : ℚ) : Bool :=
  match a with
  | .nan => false
  | .pinf => false
  | .ninf => true
  | .fin q => decide (q ≤ c)

/-- The z-score of one row:
`df['z_score'] = df['spread'] / np.sqrt(df['spread_var'])`. -/
def zScoreOf (s v : ℚ) : ExtQ := extDiv (.fin s) (extSqrt (.fin v))

/-- The body of the position loop of `generate_signals`: from flat,
enter long if `z < -entry_threshold` else short if
`z > entry_threshold`; from long, exit if `z >= -exit_threshold`; from
short, exit if `z <= exit_threshold`; otherwise keep the current
position. -/
def posStep (entry exitThr : ℚ) (pos : ℤ) (z : ExtQ) : ℤ :=
  if pos = 0 then
    if extLt z (-entry) then 1
    else if extGt z entry then -1
    else 0
  else if pos = 1 then
    if extGe z (-exitThr) then 0 else 1
  else if pos = -1 then
    if extLe z exitThr then 0 else -1
  else pos

/-- The position loop of `generate_signals`: starting from the carried
state, record the state reached after processing each z-score. -/
def positionsAux (entry exitThr : ℚ) (pos : ℤ) : List ExtQ → List ℤ
  | [] => []
  | z :: zs =>
    let p := posStep entry exitThr pos z
    p :: positionsAux entry exitThr p zs

/-- The `position` column of `generate_signals`: the loop started from
`current_pos = 0`. -/
def positionsFromZ (entry exitThr : ℚ) (zs : List ExtQ) : List ℤ :=
  positionsAux entry exitThr 0 zs

/-- `StrategyAnalyzer.generate_signals` restricted to the columns
consumed downstream: from the filter rows `(spread, spread_var)` it
computes the `z_score` column and the `position` column. -/
def generateSignals (entry exitThr : ℚ) (rows : List (ℚ × ℚ)) :
    List ExtQ × List ℤ :=
  let zs := rows.map fun r => zScoreOf r.1 r.2
  (zs, positionsFromZ entry exitThr zs)

/-- Spec-side state of the position machine: Flat, Long or Short. -/
inductive PState where
  | flat : PState
  | lng : PState
  | srt : PState
deriving DecidableEq

/-- The -1/0/+1 encoding of a spec-side state. -/
def pStateInt : PState → ℤ
  | .flat => 0
  | .lng => 1
  | .srt => -1

/-- The transition table exactly as the specification writes it, row by
row, over plain rational z-scores.  Spec-side definition for the
refinement claim about `generate_signals`. -/
def specTrans (entry exitThr : ℚ) (s : PState) (z : ℚ) : PState :=
  match s with
  | .flat => if z < -entry then .lng else if z > entry then .srt else .flat
  | .lng => if z ≥ -exitThr then .flat else .lng
  | .srt => if z ≤ exitThr then .flat else .srt

/-- The fold of the spec's transition table, recording the state after
each step.  Spec-side definition for the refinement claim. -/
def specRun (entry exitThr : ℚ) (s : PState) : List ℚ → List PState
  | [] => []
  | z :: zs =>
    let s' := specTrans entry exitThr s z
    s' :: specRun entry exitThr s' zs

/-! ### Performance engine (src/backtester.py) -/

/-- NaN-propagating addition of pandas cells. -/
def oAdd : Option ℚ → Option ℚ → Option ℚ
  | some a, some b => some (a + b)
  | _, _ => none

/-- NaN-propagating subtraction of pandas cells. -/
def oSub : Option ℚ → Option ℚ → Option ℚ
  | some a, some b => some (a - b)
  | _, _ => none

/-- NaN-propagating multiplication of pandas cells. -/
def oMul : Option ℚ → Option ℚ → Option ℚ
  | some a, some b => some (a * b)
  | _, _ => none

/-- NaN-propagating division of pandas cells.  The zero-denominator
branch is unreachable in this development: the only division performed
by the backtester is guarded by the `std == 0` check of
`_calculate_sharpe`. -/
def oDiv : Option ℚ → Option ℚ → Option ℚ
  | some a, some b => if b = 0 then none else some (a / b)
  | _, _ => none

/-- `Series.diff()`: first element NaN, then successive differences. -/
def diffL (xs : List ℚ) : List (Option ℚ) :=
  (none :: List.zipWith (fun a b => some (a - b)) xs.tail xs).take xs.length

/-- `Series.shift(1)`: first element NaN, then the series lagged by one
step. -/
def shiftOne (xs : List ℚ) : List (Option ℚ) :=
  (none :: xs.map some).take xs.length

/-- The `strategy_pnl_daily` column:
`position.shift(1) * (dY - beta.shift(1) * dX)`. -/
def strategyPnl (pos beta X Y : List ℚ) : List (Option ℚ) :=
  List.zipWith oMul (shiftOne pos)
    (List.zipWith oSub (diffL Y) (List.zipWith oMul (shiftOne beta) (diffL X)))

/-- The `trades` column: `position.diff().abs()`. -/
def tradesL (pos : List ℚ) : List (Option ℚ) :=
  (diffL pos).map (Option.map fun q => |q|)

/-- The estimated traded value `ticker_y + beta * ticker_x`. -/
def estTradeValue (beta X Y : List ℚ) : List ℚ :=
  List.zipWith (fun y v => y + v) Y (List.zipWith (fun b x => b * x) beta X)

/-- The `costs` column: `trades * est_trade_value * cost_bps`. -/
def costsL (pos beta X Y : List ℚ) (bps : ℚ) : List (Option ℚ) :=
  (List.zipWith oMul (tradesL pos) ((estTradeValue beta X Y).map some)).map
    (Option.map fun v => v * bps)

/-- `fillna(0)` on one cell. -/
def fillna0 : Option ℚ → Option ℚ := fun o => some (o.getD 0)

/-- The `net_pnl` column:
`strategy_pnl_daily - costs.fillna(0)`.  Only the costs are filled; the
NaN of the first `strategy_pnl_daily` entry is kept. -/
def netPnl (pos beta X Y : List ℚ) (bps : ℚ) : List (Option ℚ) :=
  List.zipWith oSub (strategyPnl pos beta X Y)
    ((costsL pos beta X Y bps).map fillna0)

/-- `Series.cumsum()` with pandas NaN handling: a NaN cell stays NaN in
the output and is skipped by the running total. -/
def cumsumAux (acc : ℚ) : List (Option ℚ) → List (Option ℚ)
  | [] => []
  | none :: rest => none :: cumsumAux acc rest
  | some v :: rest => some (acc + v) :: cumsumAux (acc + v) rest

/-- The `cumulative_pnl` column: `net_pnl.cumsum()`. -/
def equityCurve (pos beta X Y : List ℚ) (bps : ℚ) : List (Option ℚ) :=
  cumsumAux 0 (netPnl pos beta X Y bps)

/-- `Series.mean()` with pandas NaN handling: the mean of the non-NaN
cells, NaN when there are none. -/
def pandasMean (xs : List (Option ℚ)) : Option ℚ :=
  let vs := xs.filterMap id
  if vs.length = 0 then none else some (vs.sum / (vs.length : ℚ))

/-- `Series.std()` with pandas NaN handling and `ddof = 1`: the sample
standard deviation of the non-NaN cells, NaN when fewer than two. -/
def pandasStd (xs : List (Option ℚ)) : Option ℚ :=
  let vs := xs.filterMap id
  if vs.length ≤ 1 then none
  else
    some (Rat.sqrt
      ((vs.map fun v => (v - vs.sum / (vs.length : ℚ)) ^ 2).sum /
        ((vs.length : ℚ) - 1)))

/-- `VectorizedBacktester._calculate_sharpe`: `0` when the standard
deviation is (exactly) `0`, else `sqrt(252) * (mean / std)`.  A NaN
standard deviation does not satisfy the `std == 0` test and so falls
into the formula, where it propagates. -/
def calculateSharpe (xs : List (Option ℚ)) : Option ℚ :=
  if pandasStd xs = some 0 then some 0
  else oMul (some (Rat.sqrt 252)) (oDiv (pandasMean xs) (pandasStd xs))

/-! ### Helper lemmas -/

/-- The output component of the spec fold is the accumulator followed by
the fold started from an empty accumulator. -/
theorem specKalman_foldl_acc (delta R : ℚ) (l : List (ℚ × ℚ)) :
    ∀ (m c : ℚ) (acc : List KOut),
    (List.foldl (specKalmanStep delta R) ((m, c), acc) l).2 =
      acc ++ (List.foldl (specKalmanStep delta R) ((m, c), []) l).2 := by
  induction l with
  | nil => intro m c acc; simp
  | cons xy l ih =>
    intro m c acc
    rw [List.foldl_cons, List.foldl_cons]
    simp only [specKalmanStep, List.nil_append]
    rw [ih]
    conv_rhs => rw [ih]
    simp

/-- From any starting state, the loop of `process_data` emits exactly
the rows of the spec's left fold over the zipped inputs. -/
theorem processData_spec_aux (delta R : ℚ) :
    ∀ (xs ys : List ℚ) (m c : ℚ),
    (processData delta R ⟨m, c⟩ xs ys).2 =
      (List.foldl (specKalmanStep delta R) ((m, c), []) (xs.zip ys)).2 := by
  intro xs
  induction xs with
  | nil => intro ys m c; cases ys <;> rfl
  | cons x xs ih =>
    intro ys m c
    cases ys with
    | nil => rfl
    | cons y ys =>
      rw [List.zip_cons_cons, List.foldl_cons]
      simp only [specKalmanStep, List.nil_append]
      rw [specKalman_foldl_acc]
      simp only [processData, kalmanStep]
      rw [ih]
      simp

/-- `process_data` emits one row per input step when the two inputs have
equal length. -/
theorem processData_length (delta R : ℚ) :
    ∀ (xs ys : List ℚ), xs.length = ys.length →
    ∀ (s : KState), (processData delta R s xs ys).2.length = xs.length := by
  intro xs
  induction xs with
  | nil => intro ys _ s; cases ys <;> rfl
  | cons x xs ih =>
    intro ys hlen s
    cases ys with
    | nil => simp at hlen
    | cons y ys =>
      simp only [processData, List.length_cons]
      rw [ih ys (by simpa using hlen)]

/-- The loop body of `generate_signals` agrees with the spec's
transition table on finite z-scores, through the -1/0/+1 encoding of the
three states. -/
theorem posStep_pStateInt (entry exitThr : ℚ) (s : PState) (z : ℚ) :
    posStep entry exitThr (pStateInt s) (.fin z) =
      pStateInt (specTrans entry exitThr s z) := by
  cases s <;>
    simp only [posStep, specTrans, pStateInt, extLt, extGt, extGe, extLe] <;>
    norm_num <;> split_ifs <;> simp_all

/-- The position loop, started from the encoding of any spec state,
computes the encoded run of the spec's transition table. -/
theorem positionsAux_spec (entry exitThr : ℚ) :
    ∀ (zs : List ℚ) (s : PState),
    positionsAux entry exitThr (pStateInt s) (zs.map .fin) =
      (specRun entry exitThr s zs).map pStateInt := by
  intro zs
  induction zs with
  | nil => intro s; rfl
  | cons z zs ih =>
    intro s
    simp only [List.map_cons, positionsAux, specRun, posStep_pStateInt]
    rw [ih]

/-- The position loop emits one position per z-score. -/
theorem positionsAux_length (entry exitThr : ℚ) :
    ∀ (zs : List ExtQ) (p : ℤ),
    (positionsAux entry exitThr p zs).length = zs.length := by
  intro zs
  induction zs with
  | nil => intro p; rfl
  | cons z zs ih => intro p; simp [positionsAux, ih]

/-- One transition of the position loop moves by at most one unit and
stays inside the value set -1/0/+1. -/
theorem posStep_close (entry exitThr : ℚ) (p : ℤ) (z : ExtQ)
    (hp : p = -1 ∨ p = 0 ∨ p = 1) :
    (posStep entry exitThr p z - p).natAbs ≤ 1 ∧
    (posStep entry exitThr p z = -1 ∨ posStep entry exitThr p z = 0 ∨
      posStep entry exitThr p z = 1) := by
  rcases hp with h | h | h <;> subst h <;>
    simp only [posStep] <;> norm_num <;> split_ifs <;> simp_all

/-- Along the emitted positions, consecutive values (including the
carried-in start state) differ by at most one unit. -/
theorem positionsAux_chain (entry exitThr : ℚ) :
    ∀ (zs : List ExtQ) (p : ℤ), (p = -1 ∨ p = 0 ∨ p = 1) →
    List.Chain (fun a b => (b - a).natAbs ≤ 1) p
      (positionsAux entry exitThr p zs) := by
  intro zs
  induction zs with
  | nil => intro p _; exact List.Chain.nil
  | cons z zs ih =>
    intro p hp
    simp only [positionsAux]
    exact List.Chain.cons (posStep_close entry exitThr p z hp).1
      (ih _ (posStep_close entry exitThr p z hp).2)

/-- The rational square root of zero is zero. -/
theorem rat_sqrt_zero : Rat.sqrt 0 = 0 := by decide

/-- The rational square root of four is two. -/
theorem rat_sqrt_four : Rat.sqrt 4 = 2 := by
  rw [show (4 : ℚ) = 2 * 2 by norm_num, Rat.sqrt_eq]
  norm_num

/-- `shift(1)` preserves the series length. -/
theorem length_shiftOne (xs : List ℚ) : (shiftOne xs).length = xs.length := by
  simp [shiftOne]

/-- `diff()` preserves the series length. -/
theorem length_diffL (xs : List ℚ) : (diffL xs).length = xs.length := by
  simp [diffL]
  omega

/-- The first cell of a shifted nonempty series is NaN. -/
theorem shiftOne_getElem_zero {xs : List ℚ} (h : 0 < xs.length) :
    (shiftOne xs)[0]? = some none := by
  rw [shiftOne, List.getElem?_take]
  simp [h]

/-- Past the first cell, a shifted series holds the previous value. -/
theorem shiftOne_getElem {xs : List ℚ} {t : ℕ} (h1 : 1 ≤ t) (ht : t < xs.length) :
    (shiftOne xs)[t]? = some (some xs[t - 1]) := by
  obtain ⟨u, rfl⟩ : ∃ u, t = u + 1 := ⟨t - 1, by omega⟩
  rw [shiftOne, List.getElem?_take, if_pos ht, List.getElem?_cons_succ,
    List.getElem?_map]
  simp [List.getElem?_eq_getElem (by omega : u < xs.length)]

/-- The first cell of a differenced nonempty series is NaN. -/
theorem diffL_getElem_zero {xs : List ℚ} (h : 0 < xs.length) :
    (diffL xs)[0]? = some none := by
  rw [diffL, List.getElem?_take]
  simp [h]

/-- Past the first cell, a differenced series holds the difference with
the previous value. -/
theorem diffL_getElem {xs : List ℚ} {t : ℕ} (h1 : 1 ≤ t) (ht : t < xs.length) :
    (diffL xs)[t]? = some (some (xs[t] - xs[t - 1])) := by
  obtain ⟨u, rfl⟩ : ∃ u, t = u + 1 := ⟨t - 1, by omega⟩
  rw [diffL, List.getElem?_take, if_pos ht, List.getElem?_cons_succ,
    List.getElem?_zipWith', List.getElem?_tail]
  simp [List.getElem?_eq_getElem (by omega : u < xs.length),
    List.getElem?_eq_getElem (by omega : u + 1 < xs.length)]

/-- The gross-PnL column at any step past the first: lagged position
times the hedged price move. -/
theorem strategyPnl_getElem (pos beta X Y : List ℚ) (t : ℕ)
    (hb : beta.length = pos.length) (hX : X.length = pos.length)
    (hY : Y.length = pos.length) (h1 : 1 ≤ t) (ht : t < pos.length) :
    (strategyPnl pos beta X Y)[t]? =
      some (some (pos[t - 1] *
        (Y[t] - Y[t - 1] - beta[t - 1] * (X[t] - X[t - 1])))) := by
  rw [strategyPnl, List.getElem?_zipWith', List.getElem?_zipWith',
    List.getElem?_zipWith', shiftOne_getElem h1 ht,
    shiftOne_getElem h1 (by omega), diffL_getElem h1 (by omega),
    diffL_getElem h1 (by omega)]
  simp [oMul, oSub]

/-- The estimated traded value column, elementwise. -/
theorem estTradeValue_getElem (pos beta X Y : List ℚ) (t : ℕ)
    (hb : beta.length = pos.length) (hX : X.length = pos.length)
    (hY : Y.length = pos.length) (ht : t < pos.length) :
    (estTradeValue beta X Y)[t]? = some (Y[t] + beta[t] * X[t]) := by
  rw [estTradeValue, List.getElem?_zipWith', List.getElem?_zipWith']
  simp [List.getElem?_eq_getElem (show t < Y.length by omega),
    List.getElem?_eq_getElem (show t < beta.length by omega),
    List.getElem?_eq_getElem (show t < X.length by omega)]

/-- The filled costs column starts at zero: the NaN produced by
`position.diff()` at the first step is filled by `fillna(0)`. -/
theorem costsFilled_getElem_zero (pos beta X Y : List ℚ) (bps : ℚ)
    (hb : beta.length = pos.length) (hX : X.length = pos.length)
    (hY : Y.length = pos.length) (hn : 0 < pos.length) :
    (((costsL pos beta X Y bps).map fillna0))[0]? = some (some 0) := by
  rw [costsL, List.getElem?_map, List.getElem?_map, List.getElem?_zipWith',
    tradesL, List.getElem?_map, diffL_getElem_zero hn, List.getElem?_map,
    estTradeValue_getElem pos beta X Y 0 hb hX hY hn]
  simp [oMul, fillna0]

/-- The filled costs column at any step past the first. -/
theorem costsFilled_getElem (pos beta X Y : List ℚ) (bps : ℚ) (t : ℕ)
    (hb : beta.length = pos.length) (hX : X.length = pos.length)
    (hY : Y.length = pos.length) (h1 : 1 ≤ t) (ht : t < pos.length) :
    (((costsL pos beta X Y bps).map fillna0))[t]? =
      some (some (|pos[t] - pos[t - 1]| * (Y[t] + beta[t] * X[t]) * bps)) := by
  rw [costsL, List.getElem?_map, List.getElem?_map, List.getElem?_zipWith',
    tradesL, List.getElem?_map, diffL_getElem h1 ht, List.getElem?_map,
    estTradeValue_getElem pos beta X Y t hb hX hY ht]
  simp [oMul, fillna0]

/-- The net-PnL column is NaN at the first step: the gross PnL there is
NaN and only the costs were filled. -/
theorem netPnl_getElem_zero (pos beta X Y : List ℚ) (bps : ℚ)
    (hb : beta.length = pos.length) (hX : X.length = pos.length)
    (hY : Y.length = pos.length) (hn : 0 < pos.length) :
    (netPnl pos beta X Y bps)[0]? = some none := by
  rw [netPnl, List.getElem?_zipWith', strategyPnl, List.getElem?_zipWith',
    List.getElem?_zipWith', List.getElem?_zipWith', shiftOne_getElem_zero hn,
    shiftOne_getElem_zero (show 0 < beta.length by omega),
    diffL_getElem_zero (show 0 < Y.length by omega),
    diffL_getElem_zero (show 0 < X.length by omega),
    costsFilled_getElem_zero pos beta X Y bps hb hX hY hn]
  simp [oMul, oSub]

/-- The net-PnL column at any step past the first: gross PnL minus the
transaction cost. -/
theorem netPnl_getElem (pos beta X Y : List ℚ) (bps : ℚ) (t : ℕ)
    (hb : beta.length = pos.length) (hX : X.length = pos.length)
    (hY : Y.length = pos.length) (h1 : 1 ≤ t) (ht : t < pos.length) :
    (netPnl pos beta X Y bps)[t]? =
      some (some (pos[t - 1] *
          (Y[t] - Y[t - 1] - beta[t - 1] * (X[t] - X[t - 1])) -
        |pos[t] - pos[t - 1]| * (Y[t] + beta[t] * X[t]) * bps)) := by
  rw [netPnl, List.getElem?_zipWith',
    strategyPnl_getElem pos beta X Y t hb hX hY h1 ht,
    costsFilled_getElem pos beta X Y bps t hb hX hY h1 ht]
  simp [oSub]

/-- A cell of the running cumulative sum is NaN exactly where the input
cell is NaN. -/
theorem cumsumAux_getElem_some_none :
    ∀ (l : List (Option ℚ)) (acc : ℚ) (t : ℕ),
    ((cumsumAux acc l)[t]? = some none) ↔ (l[t]? = some none) := by
  intro l
  induction l with
  | nil => intro acc t; rfl
  | cons o rest ih =>
    intro acc t
    cases o with
    | none =>
      cases t with
      | zero => simp [cumsumAux]
      | succ u => simp only [cumsumAux, List.getElem?_cons_succ]; exact ih acc u
    | some v =>
      cases t with
      | zero => simp [cumsumAux]
      | succ u => simp only [cumsumAux, List.getElem?_cons_succ]; exact ih (acc + v) u

/-- A cell of the running cumulative sum is a number exactly where the
input cell is a number. -/
theorem cumsumAux_getElem_isSome :
    ∀ (l : List (Option ℚ)) (acc : ℚ) (t : ℕ),
    ((cumsumAux acc l)[t]?.getD none).isSome = ((l[t]?).getD none).isSome := by
  intro l
  induction l with
  | nil => intro acc t; rfl
  | cons o rest ih =>
    intro acc t
    cases o with
    | none =>
      cases t with
      | zero => simp [cumsumAux]
      | succ u => simp only [cumsumAux, List.getElem?_cons_succ]; exact ih acc u
    | some v =>
      cases t with
      | zero => simp [cumsumAux]
      | succ u => simp only [cumsumAux, List.getElem?_cons_succ]; exact ih (acc + v) u

/-- A series whose cells all hold the same value filters to a replicate
of that value. -/
theorem filterMap_id_const {xs : List (Option ℚ)} {c : ℚ}
    (h : ∀ o ∈ xs, o = some c) :
    xs.filterMap id = List.replicate xs.length c := by
  induction xs with
  | nil => rfl
  | cons o rest ih =>
    have ho : o = some c := h o (by simp)
    subst ho
    simp only [List.filterMap_cons, id, List.length_cons, List.replicate_succ]
    rw [ih (fun o hmem => h o (by simp [hmem]))]

/-! ### Claim theorems -/

/-- C1: for every pair of equal-length inputs and any configuration
scalars `delta` and `R`, `process_data` on a freshly constructed filter
returns exactly the rows of the left fold of the spec's per-step
recursion started from mean 0 and covariance 1, one row (beta, spread,
spread_var) per input step. -/
theorem processData_matches_spec_fold (delta R : ℚ) (xs ys : List ℚ)
    (hlen : xs.length = ys.length) :
    (processData delta R kalmanFreshState xs ys).2 = specKalman delta R xs ys ∧
    (processData delta R kalmanFreshState xs ys).2.length = xs.length :=
  ⟨processData_spec_aux delta R xs ys 0 1,
   processData_length delta R xs ys hlen _⟩

/-- Witness for C1 at a concrete one-step input. -/
theorem processData_matches_spec_fold_witness :
    (processData 1 1 kalmanFreshState [1] [2]).2 = specKalman 1 1 [1] [2] ∧
    (processData 1 1 kalmanFreshState [1] [2]).2.length = [(1 : ℚ)].length :=
  processData_matches_spec_fold 1 1 [1] [2] rfl

/-- C2: for every z-score sequence and thresholds, the position column
of `generate_signals` equals the fold of the spec's transition table
started in Flat, recording the state after each transition, and every
recorded position is -1, 0 or +1. -/
theorem positions_match_spec_table (entry exitThr : ℚ) (zs : List ℚ) :
    positionsFromZ entry exitThr (zs.map .fin) =
      (specRun entry exitThr .flat zs).map pStateInt ∧
    ∀ p ∈ positionsFromZ entry exitThr (zs.map .fin),
      p = -1 ∨ p = 0 ∨ p = 1 := by
  have h : positionsFromZ entry exitThr (zs.map .fin) =
      (specRun entry exitThr .flat zs).map pStateInt :=
    positionsAux_spec entry exitThr zs .flat
  refine ⟨h, ?_⟩
  intro p hp
  rw [h] at hp
  rcases List.mem_map.mp hp with ⟨s, _, rfl⟩
  cases s <;> simp [pStateInt]

/-- Witness for C2 at a concrete two-step z-score sequence. -/
theorem positions_match_spec_table_witness :
    positionsFromZ 2 0 ([(-3 : ℚ), 1].map .fin) =
      (specRun 2 0 .flat [(-3 : ℚ), 1]).map pStateInt ∧
    ((1 : ℤ) = -1 ∨ (1 : ℤ) = 0 ∨ (1 : ℤ) = 1) :=
  ⟨(positions_match_spec_table 2 0 [(-3 : ℚ), 1]).1,
   (positions_match_spec_table 2 0 [(-3 : ℚ), 1]).2 1 (by decide)⟩

/-- C3: for every input, the gross PnL at each step past the first is
the previous position times the hedged price move using the previous
beta (no look-ahead); at the spec's concrete scenario with zero
transaction cost, `net[2] = 0` and `net[3] = -1`. -/
theorem strategy_pnl_lagged_no_lookahead :
    (∀ (pos beta X Y : List ℚ) (t : ℕ)
      (hb : beta.length = pos.length) (hX : X.length = pos.length)
      (hY : Y.length = pos.length) (h1 : 1 ≤ t) (ht : t < pos.length),
      (strategyPnl pos beta X Y)[t]? =
        some (some (pos[t - 1] *
          (Y[t] - Y[t - 1] - beta[t - 1] * (X[t] - X[t - 1]))))) ∧
    (netPnl [0, 0, 1, 1, 0] [1, 1, 1, 1, 1] [5, 5, 6, 6, 6]
        [10, 11, 13, 12, 12] 0)[2]? = some (some (0 : ℚ)) ∧
    (netPnl [0, 0, 1, 1, 0] [1, 1, 1, 1, 1] [5, 5, 6, 6, 6]
        [10, 11, 13, 12, 12] 0)[3]? = some (some ((-1) : ℚ)) := by
  refine ⟨fun pos beta X Y t hb hX hY h1 ht =>
    strategyPnl_getElem pos beta X Y t hb hX hY h1 ht, ?_, ?_⟩
  · rw [netPnl_getElem [0, 0, 1, 1, 0] [1, 1, 1, 1, 1] [5, 5, 6, 6, 6]
      [10, 11, 13, 12, 12] 0 2 rfl rfl rfl (by omega) (by decide)]
    norm_num
  · rw [netPnl_getElem [0, 0, 1, 1, 0] [1, 1, 1, 1, 1] [5, 5, 6, 6, 6]
      [10, 11, 13, 12, 12] 0 3 rfl rfl rfl (by omega) (by decide)]
    norm_num

/-- Witness for C3 at a concrete two-step input. -/
theorem strategy_pnl_lagged_no_lookahead_witness :
    (strategyPnl [0, 1] [1, 1] [1, 2] [1, 3])[1]? =
      some (some (([(0 : ℚ), 1])[0] *
        (([(1 : ℚ), 3])[1] - ([(1 : ℚ), 3])[0] -
          ([(1 : ℚ), 1])[0] * (([(1 : ℚ), 2])[1] - ([(1 : ℚ), 2])[0])))) :=
  strategy_pnl_lagged_no_lookahead.1 [0, 1] [1, 1] [1, 2] [1, 3] 1
    rfl rfl rfl (by omega) (by decide)

/-- C4 counterexample: running `process_data` twice in succession on the
same instance with the same one-step input produces different outputs,
because the instance state is not reset between runs. -/
theorem processData_rerun_differs :
    (processData 0 1 (processData 0 1 kalmanFreshState [1] [1]).1 [1] [1]).2 ≠
      (processData 0 1 kalmanFreshState [1] [1]).2 := by
  norm_num [processData, kalmanStep, kalmanFreshState, KOut.mk.injEq]

/-- C4 amended: filter state persists on the instance across calls; a
second `process_data` call on the same instance continues from the first
call's final state — it equals the tail of one pass over the
concatenated inputs, rather than a restart from mean 0, covariance 1. -/
theorem processData_state_persists (delta R : ℚ) (s : KState)
    (xs ys xs' ys' : List ℚ) (hlen : xs.length = ys.length) :
    processData delta R (processData delta R s xs ys).1 xs' ys' =
      ((processData delta R s (xs ++ xs') (ys ++ ys')).1,
       ((processData delta R s (xs ++ xs') (ys ++ ys')).2).drop xs.length) := by
  induction xs generalizing ys s with
  | nil =>
    cases ys with
    | nil => simp [processData]
    | cons y ys => simp at hlen
  | cons x xs ih =>
    cases ys with
    | nil => simp at hlen
    | cons y ys =>
      simp only [processData, List.cons_append, List.length_cons,
        List.drop_succ_cons]
      exact ih _ _ (by simpa using hlen)

/-- Witness for the amended C4 at concrete one-step runs. -/
theorem processData_state_persists_witness :
    processData 0 1 (processData 0 1 kalmanFreshState [1] [1]).1 [2] [3] =
      ((processData 0 1 kalmanFreshState ([1] ++ [2]) ([1] ++ [3])).1,
       ((processData 0 1 kalmanFreshState ([1] ++ [2]) ([1] ++ [3])).2).drop
         [(1 : ℚ)].length) :=
  processData_state_persists 0 1 kalmanFreshState [1] [1] [2] [3] rfl

/-- C5 counterexample: with `delta = -1` and `R = -1` (an invalid
configuration), the constructor performs no validation and
`process_data` runs to completion, emitting a row — no ConfigurationError
exists and an output is produced. -/
theorem processData_invalid_config_emits_output :
    (processData (-1) (-1) kalmanFreshState [1] [1]).2 = [⟨0, 1, -1⟩] := by
  norm_num [processData, kalmanStep, kalmanFreshState]

/-- C5 amended: the filter performs no configuration validation: even
when `delta < 0` or `R <= 0`, construction succeeds and `process_data`
runs over the whole input, emitting one row per step. -/
theorem processData_runs_without_validation (delta R : ℚ) (xs ys : List ℚ)
    (hbad : delta < 0 ∨ R ≤ 0) (hlen : xs.length = ys.length) :
    (processData delta R kalmanFreshState xs ys).2.length = xs.length :=
  processData_length delta R xs ys hlen _

/-- Witness for the amended C5 at a concrete invalid configuration. -/
theorem processData_runs_without_validation_witness :
    (processData (-1) (-1) kalmanFreshState [1] [1]).2.length =
      [(1 : ℚ)].length :=
  processData_runs_without_validation (-1) (-1) [1] [1]
    (Or.inl (by decide)) rfl

/-- C6 counterexample: on rows whose first step has `spread_var = 0`,
`generate_signals` does not fail; the z-score becomes positive infinity,
the state machine consumes it (entering Short), and processing continues
to the following row. -/
theorem generate_signals_zero_variance_continues :
    generateSignals 2 0 [(1, 0), (1, 4)] =
      ([ExtQ.pinf, ExtQ.fin (1 / 2)], [-1, -1]) := by
  simp [generateSignals, zScoreOf, extSqrt, extDiv, rat_sqrt_zero,
    rat_sqrt_four, positionsFromZ, positionsAux, posStep, extLt, extGt,
    extLe, extGe]
  norm_num

/-- C6 amended: no NumericError is raised: `generate_signals` always
produces one position per input row, and at a step with
`spread_variance <= 0` the z-score receives numpy's float value — NaN
for negative variance, a signed infinity (or NaN at `0/0`) for zero
variance — after which processing continues. -/
theorem generate_signals_no_numeric_error (entry exitThr : ℚ) :
    (∀ rows : List (ℚ × ℚ),
      (generateSignals entry exitThr rows).2.length = rows.length) ∧
    (∀ s v : ℚ, v < 0 → zScoreOf s v = .nan) ∧
    (∀ s : ℚ, 0 < s → zScoreOf s 0 = .pinf) ∧
    (∀ s : ℚ, s < 0 → zScoreOf s 0 = .ninf) ∧
    zScoreOf 0 0 = .nan := by
  refine ⟨?_, ?_, ?_, ?_, ?_⟩
  · intro rows
    simp [generateSignals, positionsFromZ, positionsAux_length]
  · intro s v hv
    simp [zScoreOf, extSqrt, if_pos hv, extDiv]
  · intro s hs
    simp [zScoreOf, extSqrt, extDiv, rat_sqrt_zero, hs, ne_of_gt hs]
  · intro s hs
    simp [zScoreOf, extSqrt, extDiv, rat_sqrt_zero, ne_of_lt hs,
      not_lt_of_lt hs]
  · simp [zScoreOf, extSqrt, extDiv, rat_sqrt_zero]

/-- Witness for the amended C6 at concrete rows and degenerate
variances. -/
theorem generate_signals_no_numeric_error_witness :
    (generateSignals 2 0 [((1 : ℚ), (4 : ℚ))]).2.length = 1 ∧
    zScoreOf 3 (-2) = .nan ∧ zScoreOf 3 0 = .pinf ∧ zScoreOf (-3) 0 = .ninf :=
  ⟨(generate_signals_no_numeric_error 2 0).1 [((1 : ℚ), (4 : ℚ))],
   (generate_signals_no_numeric_error 2 0).2.1 3 (-2) (by decide),
   (generate_signals_no_numeric_error 2 0).2.2.1 3 (by decide),
   (generate_signals_no_numeric_error 2 0).2.2.2.1 (-3) (by decide)⟩

/-- C7 counterexample: at a concrete two-step input, the first net-PnL
cell is NaN (modelled `none`), not 0 — only the costs column is filled
with zeros, the first gross-PnL cell is left undefined. -/
theorem net_pnl_first_step_not_zero :
    (netPnl [0, 1] [1, 1] [1, 2] [1, 3] 0)[0]? = some none ∧
    (netPnl [0, 1] [1, 1] [1, 2] [1, 3] 0)[0]? ≠ some (some 0) := by
  have h := netPnl_getElem_zero [0, 1] [1, 1] [1, 2] [1, 3] 0 rfl rfl rfl
    (by decide)
  exact ⟨h, by rw [h]; simp⟩

/-- C7 amended: `net[t] = pnl[t] - cost[t]` with only the undefined
first-step cost treated as 0: `net[0]` and `equity[0]` stay NaN, while
every later net and equity cell is a well-defined number. -/
theorem net_pnl_only_costs_filled (pos beta X Y : List ℚ) (bps : ℚ)
    (hb : beta.length = pos.length) (hX : X.length = pos.length)
    (hY : Y.length = pos.length) (hn : 0 < pos.length) :
    (netPnl pos beta X Y bps)[0]? = some none ∧
    (equityCurve pos beta X Y bps)[0]? = some none ∧
    ∀ t, 1 ≤ t → t < pos.length →
      (((netPnl pos beta X Y bps)[t]?).getD none).isSome = true ∧
      (((equityCurve pos beta X Y bps)[t]?).getD none).isSome = true := by
  have h0 := netPnl_getElem_zero pos beta X Y bps hb hX hY hn
  refine ⟨h0, ?_, ?_⟩
  · rw [equityCurve, cumsumAux_getElem_some_none]
    exact h0
  · intro t h1 ht
    have hnet := netPnl_getElem pos beta X Y bps t hb hX hY h1 ht
    constructor
    · rw [hnet]; rfl
    · rw [equityCurve, cumsumAux_getElem_isSome, hnet]; rfl

/-- Witness for the amended C7 at a concrete two-step input. -/
theorem net_pnl_only_costs_filled_witness :
    (netPnl [0, 1] [2, 2] [1, 2] [1, 3] 1)[0]? = some none ∧
    (equityCurve [0, 1] [2, 2] [1, 2] [1, 3] 1)[0]? = some none ∧
    ((((netPnl [0, 1] [2, 2] [1, 2] [1, 3] 1)[1]?).getD none).isSome = true ∧
     (((equityCurve [0, 1] [2, 2] [1, 2] [1, 3] 1)[1]?).getD none).isSome =
       true) :=
  ⟨(net_pnl_only_costs_filled [0, 1] [2, 2] [1, 2] [1, 3] 1 rfl rfl rfl
      (by decide)).1,
   (net_pnl_only_costs_filled [0, 1] [2, 2] [1, 2] [1, 3] 1 rfl rfl rfl
      (by decide)).2.1,
   (net_pnl_only_costs_filled [0, 1] [2, 2] [1, 2] [1, 3] 1 rfl rfl rfl
      (by decide)).2.2 1 (by omega) (by decide)⟩

/-- C8 counterexample: on the single-element series `[5]` the sample
standard deviation (ddof 1) is NaN, the `std == 0` guard does not fire,
and the Sharpe ratio is NaN — not the 0 sentinel. -/
theorem sharpe_single_element_not_zero : calculateSharpe [some 5] ≠ some 0 := by
  simp [calculateSharpe, pandasStd, pandasMean, oDiv, oMul]

/-- C8 amended: the Sharpe computation returns the 0 sentinel whenever
the sample standard deviation is exactly 0, which holds for every
constant series of length at least two; on a single-element series the
sample standard deviation is NaN and the result is NaN, not 0. -/
theorem sharpe_zero_std_behavior :
    (∀ (xs : List (Option ℚ)) (c : ℚ), (∀ o ∈ xs, o = some c) →
      2 ≤ xs.length → calculateSharpe xs = some 0) ∧
    (∀ q : ℚ, calculateSharpe [some q] = none) := by
  constructor
  · intro xs c hall hlen
    have hstd : pandasStd xs = some 0 := by
      rw [pandasStd]
      simp only [filterMap_id_const hall, List.length_replicate]
      rw [if_neg (by omega)]
      have hsum : (List.replicate xs.length c).sum = (xs.length : ℚ) * c := by
        simp [List.sum_replicate, nsmul_eq_mul]
      have hmean : (List.replicate xs.length c).sum / ((xs.length : ℚ)) = c := by
        rw [hsum]
        field_simp
      rw [List.map_replicate, hmean]
      simp
    rw [calculateSharpe, if_pos hstd]
  · intro q
    simp [calculateSharpe, pandasStd, pandasMean, oDiv, oMul]

/-- Witness for the amended C8 at a concrete flat series and a concrete
single-element series. -/
theorem sharpe_zero_std_behavior_witness :
    calculateSharpe [some 3, some 3] = some 0 ∧
    calculateSharpe [some 7] = none :=
  ⟨sharpe_zero_std_behavior.1 [some 3, some 3] 3 (by decide) (by decide),
   sharpe_zero_std_behavior.2 7⟩

/-- C9: with `R > 0`, a filter step whose design value is `X[t] = 0`
emits `spread_variance = R`, has Kalman gain 0, and leaves the
hedge-ratio estimate unchanged (posterior mean and emitted beta equal
the prior mean), while still emitting an output row. -/
theorem kalman_zero_design_step (delta R : ℚ) (s : KState) (y : ℚ)
    (hR : 0 < R) :
    (kalmanStep delta R s 0 y).2.spreadVar = R ∧
    kalmanGain delta R s 0 = 0 ∧
    (kalmanStep delta R s 0 y).2.beta = s.mean ∧
    (kalmanStep delta R s 0 y).1.mean = s.mean := by
  simp [kalmanStep, kalmanGain]

/-- Witness for C9 at a concrete state and observation. -/
theorem kalman_zero_design_step_witness :
    (kalmanStep 1 2 ⟨3, 4⟩ 0 5).2.spreadVar = 2 ∧
    kalmanGain 1 2 ⟨3, 4⟩ 0 = 0 ∧
    (kalmanStep 1 2 ⟨3, 4⟩ 0 5).2.beta = (KState.mk 3 4).mean ∧
    (kalmanStep 1 2 ⟨3, 4⟩ 0 5).1.mean = (KState.mk 3 4).mean :=
  kalman_zero_design_step 1 2 ⟨3, 4⟩ 5 (by decide)

/-- C10: for every z-score sequence (including NaN and infinite values)
and every pair of thresholds, consecutive positions differ by at most
one unit: the machine never moves directly between Long and Short, so
the trade indicator is never 2. -/
theorem positions_chain_no_flip (entry exitThr : ℚ) (zs : List ExtQ) (t : ℕ)
    (ht : t + 1 < (positionsFromZ entry exitThr zs).length) :
    ((positionsFromZ entry exitThr zs).get ⟨t + 1, ht⟩ -
      (positionsFromZ entry exitThr zs).get ⟨t, by omega⟩).natAbs ≤ 1 := by
  have hch : List.Chain' (fun a b => (b - a).natAbs ≤ 1)
      ((0 : ℤ) :: positionsFromZ entry exitThr zs) :=
    positionsAux_chain entry exitThr zs 0 (Or.inr (Or.inl rfl))
  rw [List.chain'_iff_get] at hch
  have := hch (t + 1) (by simp; omega)
  simpa using this

/-- Witness for C10 at a concrete z-score sequence. -/
theorem positions_chain_no_flip_witness :
    ((positionsFromZ 2 0 [ExtQ.fin (-3), ExtQ.fin 5]).get ⟨1, by decide⟩ -
      (positionsFromZ 2 0 [ExtQ.fin (-3), ExtQ.fin 5]).get
        ⟨0, by decide⟩).natAbs ≤ 1 :=
  positions_chain_no_flip 2 0 [ExtQ.fin (-3), ExtQ.fin 5] 0 (by decide)
